import Mathlib

/-!
# userist: request interception, credential resolution and permission checks

A shallow embedding of `rest/functions.go`.

* Go `interface{}` values are the inductive `Value`; a type assertion
  `x.(T)` that fails is a run-time panic, modelled as `Except.error`.
* Go's `(result, error)` pairs stay pairs, the error being an `Option String`
  (the text of `err.Error()`).
* Side effects on the response writer and on the logger are recorded, in
  program order, as a list of `Event`s; calling the downstream handler is the
  event `Event.Call`.
* Configuration (viper), the JWT library, the user store and the request
  dumper are fields of `Env`.
* What the JWT library does with a token it issued (`verifyClaims`) and what
  JSON decoding returns for a value (`jsonDecode`) are modelled from the
  specification of the Token Codec.
-/

namespace Userist

/-! ## Dynamic values -/

/-- Go values stored in an `interface{}`: what YAML configuration and decoded
JSON claims hold. `int` is a Go `int`, `float64` a decoded JSON number,
`list` a `[]interface{}`, `object` a `map[string]interface{}` and `imap` a
`map[interface{}]interface{}`. `null` is the nil interface. -/
inductive Value where
  | null
  | bool (b : Bool)
  | int (n : Int)
  | float64 (q : Rat)
  | str (s : String)
  | list (xs : List Value)
  | object (kvs : List (String × Value))
  | imap (kvs : List (Value × Value))

instance : Inhabited Value := ⟨Value.null⟩

/-- Index expression `m[key]` on a `map[string]interface{}`: the value and
whether the key is present. -/
def mapIndex (key : String) : List (String × Value) → Option Value
  | [] => none
  | (k, v) :: rest => if k = key then some v else mapIndex key rest

/-- Index expression `m["key"]` with a string constant on a
`map[interface{}]interface{}`; an absent key yields the nil interface. -/
def imapIndex (key : String) : List (Value × Value) → Value
  | [] => Value.null
  | (Value.str k, v) :: rest => if k = key then v else imapIndex key rest
  | _ :: rest => imapIndex key rest

/-! ## strconv -/

/-- Go `strconv.Itoa`: decimal digits, with a leading minus sign for negatives. -/
def Itoa (i : Int) : String :=
  match i with
  | Int.ofNat n => Nat.repr n
  | Int.negSucc n => "-" ++ Nat.repr (n + 1)

/-! ## Principals -/

/-- The fields of `models.User` that this file sets; the zero value has empty
strings and status 0. -/
structure User where
  DisplayName : String := ""
  Username : String := ""
  Status : Int := 0

/-- Go `AuthorizedUser`: the user record, the untyped permissions payload and
the kind (`"user"` or `"service"`). The Go field `Type` is named `Kind` here, `Type`
being reserved. -/
structure AuthorizedUser where
  User : User := {}
  Permissions : Value := Value.null
  Kind : String := ""

/-- Comparison `perm == permission` of an interface value with a string: true
exactly when the dynamic type is string and the contents agree. -/
def ifaceEqString (perm : Value) (permission : String) : Bool :=
  match perm with
  | Value.str s => decide (s = permission)
  | _ => false

/-- Loop of the `"user"` branch: no early exit, `hasPerm` is set on every match. -/
def userLoop (permission : String) (perms : List Value) (hasPerm : Bool) : Bool :=
  perms.foldl (fun acc perm => if ifaceEqString perm permission then true else acc) hasPerm

/-- Loop of the `"service"` branch: each element is asserted to be a string
(`perm.(string)`) before it is compared; a failed assertion panics. -/
def serviceLoop (permission : String) : List Value → Bool → Except String Bool
  | [], hasPerm => Except.ok hasPerm
  | Value.str s :: rest, hasPerm =>
      serviceLoop permission rest (if s = permission then true else hasPerm)
  | _ :: _, _ => Except.error "interface conversion: interface is not string"

/-- Go `HasPermission(user, permission, tenant_id)`, the pointer argument being
non-nil. `Except.error` is a run-time panic from a failed type assertion. -/
def HasPermission (user : AuthorizedUser) (permission : String) (tenant_id : Int) :
    Except String Bool :=
  let hasPerm := false
  if user.Kind = "user" then
    match user.Permissions with
    | Value.object tenants =>
        match mapIndex (Itoa tenant_id) tenants with
        | some tenant =>
            match tenant with
            | Value.list perms => Except.ok (userLoop permission perms hasPerm)
            | _ => Except.error "interface conversion: interface is not []interface"
        | none => Except.ok hasPerm
    | _ => Except.error "interface conversion: interface is not map[string]interface"
  else if user.Kind = "service" then
    match user.Permissions with
    | Value.list perms => serviceLoop permission perms hasPerm
    | _ => Except.error "interface conversion: interface is not []interface"
  else
    Except.ok hasPerm

/-- A per-tenant permission map as a `"user"` payload. -/
def userPayload (m : List (String × List String)) : Value :=
  Value.object (m.map fun kv => (kv.1, Value.list (kv.2.map Value.str)))

/-- A flat permission list as a `"service"` payload. -/
def servicePayload (l : List String) : Value :=
  Value.list (l.map Value.str)

/-- Entry of a per-tenant permission map under a key. -/
def tenantEntry (key : String) : List (String × List String) → Option (List String)
  | [] => none
  | (k, v) :: rest => if k = key then some v else tenantEntry key rest

/-! ## strings -/

/-- Go `strings.Contains(s, substr)` on the characters of the strings. -/
def containsAt (substr : List Char) : List Char → Bool
  | [] => substr.isPrefixOf []
  | c :: cs => substr.isPrefixOf (c :: cs) || containsAt substr cs

/-- Go `strings.Contains`. -/
def Contains (s substr : String) : Bool :=
  containsAt substr.data s.data

/-- Left-to-right scan of `strings.Replace` for a non-empty `old`: `skip`
counts the characters of a matched occurrence still to be dropped, `left` the
replacements still allowed. -/
def replaceScan (old new : List Char) : List Char → Nat → Nat → List Char
  | [], _, _ => []
  | _ :: cs, skip + 1, left => replaceScan old new cs skip left
  | c :: cs, 0, left =>
      if left ≠ 0 ∧ old.isPrefixOf (c :: cs) = true then
        new ++ replaceScan old new cs (old.length - 1) (left - 1)
      else
        c :: replaceScan old new cs 0 left

/-- Scan of `strings.Replace` for an empty `old`: `new` is inserted before each
character and at the end, `left` insertions at most. -/
def replaceEmpty (new : List Char) : List Char → Nat → List Char
  | cs, 0 => cs
  | [], _ + 1 => new
  | c :: cs, left + 1 => new ++ c :: replaceEmpty new cs left

/-- Go `strings.Replace(s, old, new, n)`: the first `n` non-overlapping
occurrences of `old` are replaced by `new`, all of them when `n < 0`. -/
def Replace (s old new : String) (n : Int) : String :=
  if old = new ∨ n = 0 then s
  else
    let left : Nat := if n < 0 then s.data.length + 1 else n.toNat
    if old.data = [] then String.mk (replaceEmpty new.data s.data left)
    else String.mk (replaceScan old.data new.data s.data 0 left)

/-- Go `unicode.IsSpace`. -/
def IsSpace (c : Char) : Bool :=
  let r := c.toNat
  (0x09 ≤ r && r ≤ 0x0d) || r = 0x20 || r = 0x85 || r = 0xa0 || r = 0x1680 ||
  (0x2000 ≤ r && r ≤ 0x200a) || r = 0x2028 || r = 0x2029 || r = 0x202f ||
  r = 0x205f || r = 0x3000

/-- Characters of `strings.TrimSpace`: leading and trailing white space removed. -/
def trimSpaceChars (cs : List Char) : List Char :=
  (((cs.dropWhile IsSpace).reverse).dropWhile IsSpace).reverse

/-- Go `strings.TrimSpace`. -/
def TrimSpace (s : String) : String :=
  String.mk (trimSpaceChars s.data)

/-! ## strconv.Atoi -/

/-- Value of a decimal digit, `none` for any other character. -/
def digitVal (c : Char) : Option Nat :=
  if 48 ≤ c.toNat ∧ c.toNat ≤ 57 then some (c.toNat - 48) else none

/-- Accumulate decimal digits; `none` on the first character that is no digit. -/
def parseDigits : List Char → Nat → Option Nat
  | [], acc => some acc
  | c :: cs, acc =>
      match digitVal c with
      | some d => parseDigits cs (acc * 10 + d)
      | none => none

/-- Unsigned part of `strconv.Atoi`: at least one digit, digits only. -/
def parseUnsigned (ds : List Char) : Option Nat :=
  match ds with
  | [] => none
  | _ :: _ => parseDigits ds 0

/-- Go `strconv.Atoi` on a 64-bit platform: an optional sign followed by one or
more decimal digits, the value within the range of `int`. `none` stands for a
non-nil error (syntax or range). -/
def Atoi (s : String) : Option Int :=
  match s.data with
  | [] => none
  | '-' :: ds =>
      match parseUnsigned ds with
      | some n => if n ≤ 2 ^ 63 then some (-(n : Int)) else none
      | none => none
  | '+' :: ds =>
      match parseUnsigned ds with
      | some n => if n < 2 ^ 63 then some (n : Int) else none
      | none => none
  | ds =>
      match parseUnsigned ds with
      | some n => if n < 2 ^ 63 then some (n : Int) else none
      | none => none

/-! ## Requests and headers -/

/-- Letter case of `textproto.CanonicalMIMEHeaderKey`: upper case at the start
and after a hyphen, lower case elsewhere. -/
def canonicalChars : List Char → Bool → List Char
  | [], _ => []
  | c :: cs, upper =>
      (if upper then c.toUpper else c.toLower) :: canonicalChars cs (c == '-')

/-- Go `textproto.CanonicalMIMEHeaderKey` for keys made of token characters. -/
def CanonicalMIMEHeaderKey (key : String) : String :=
  String.mk (canonicalChars key.data true)

/-- Go `http.Header`, a `map[string][]string` under canonical keys. -/
abbrev Header := List (String × List String)

/-- Map index `h[key]` on a header map; an absent key gives the nil slice. -/
def Header.values (h : Header) (key : String) : List String :=
  match h with
  | [] => []
  | (k, v) :: rest => if k = key then v else Header.values rest key

/-- Go `Header.Get`: the first value under the canonical key, `""` when there
is none. -/
def Header.Get (h : Header) (key : String) : String :=
  match Header.values h (CanonicalMIMEHeaderKey key) with
  | [] => ""
  | v :: _ => v

/-- The part of `http.Request` the interceptor reads. -/
structure Request where
  Header : Header := []

/-! ## Environment and effects -/

/-- Go `jwt.Token` after parsing: the validity flag and the decoded claims. -/
structure Token where
  Valid : Bool := false
  Claims : List (String × Value) := []

/-- Effects in program order: response headers, the status line, the encoded
body, log lines, and the call `f(w, r, u, t)` of the downstream handler. -/
inductive Event where
  | SetHeader (key value : String)
  | WriteHeader (status : Int)
  | Encode (body : Value)
  | LogError (msg : String)
  | LogInfo (msg : String)
  | Call (u : AuthorizedUser) (t : Int)

/-- Outcome of running a function: the effects it produced and either its
return value or the panic that stopped it. -/
structure Run (α : Type) where
  events : List Event
  result : Except String α

/-- Collaborators outside this file. `jwt` and `log` are the viper string maps
of those names, `services_auth_keys` is `none` when `viper.IsSet` is false.
`ParseWithClaims` receives the token string and the outcome of the key function
(the signing key, or its panic); its result is the library's `(token, err)`, or
a panic. `GetUserByID`, `DumpRequest` and `SignedString` return Go
`(value, err)` pairs; `Marshal` is `json.Marshal` as text. `uintOutOfRange` is
the platform's result of converting to `uint` a float64 whose truncation is not
a 64-bit unsigned value, which Go leaves implementation-dependent. -/
structure Env where
  jwt : List (String × Value)
  log : List (String × Value)
  services_auth_keys : Option Value
  ParseWithClaims : String → Except String String → Except String (Token × Option String)
  GetUserByID : Nat → User × Option String
  DumpRequest : Request → String × Option String
  Marshal : Value → String
  SignedString : List (String × Value) → String → String × Option String
  uintOutOfRange : Rat → Nat

/-- Condition `logConfig["enable_http_requests_log"] == true`. -/
def logEnabled (env : Env) : Bool :=
  match mapIndex "enable_http_requests_log" env.log with
  | some (Value.bool true) => true
  | _ => false

/-- Body `map[string]string{"error": error}`. -/
def errorBody (error : String) : Value :=
  Value.object [("error", Value.str error)]

/-- Go `JsonHttpRespond(w, respond, error, status)`. -/
def JsonHttpRespond (env : Env) (respond : Value) (error : String) (status : Int) :
    List Event :=
  [Event.WriteHeader status] ++
  (if logEnabled env then
    if error ≠ "" then
      [Event.LogError
        ("Status: " ++ Itoa status ++ ", Response: " ++ env.Marshal (errorBody error))]
    else
      [Event.LogInfo ("Status: " ++ Itoa status ++ ", Response: " ++ env.Marshal respond)]
  else []) ++
  (if error ≠ "" then [Event.Encode (errorBody error)] else [Event.Encode respond])

/-- Go `AddDefaultHeaders(w)`. -/
def AddDefaultHeaders : List Event :=
  [Event.SetHeader "Content-Type" "application/json; charset=UTF-8",
   Event.SetHeader "Access-Control-Allow-Origin" "*"]

/-- Status codes of `net/http`. -/
def StatusUnauthorized : Int := 401

/-- Status code `http.StatusForbidden`. -/
def StatusForbidden : Int := 403

/-! ## CheckAuth -/

/-- Key function handed to the parser: `[]byte(jwtConfig["secret"].(string))`. -/
def keyFunc (env : Env) : Except String String :=
  match mapIndex "secret" env.jwt with
  | some (Value.str secret) => Except.ok secret
  | _ => Except.error "interface conversion: interface is not string"

/-- Conversion `uint(x)` of a float64 on a 64-bit platform: the fraction is
discarded (truncation towards zero); when the truncated value is not in
[0, 2^64) the result is the platform's. -/
def toUint (env : Env) (q : Rat) : Nat :=
  let z := Int.tdiv q.num q.den
  if 0 ≤ z ∧ z < 18446744073709551616 then z.toNat else env.uintOutOfRange q

/-- Loop over `services.([]interface{})`: each entry is asserted to be a
`map[interface{}]interface{}` with a string under `"key"`; the first entry whose
key equals the header is returned, after asserting its `"name"` to be a string
and its `"permissions"` a `[]interface{}`. `none` when the loop ends without a
match. -/
def scanServices (authHeader : String) : List Value → Except String (Option AuthorizedUser)
  | [] => Except.ok none
  | Value.imap s :: rest =>
      match imapIndex "key" s with
      | Value.str service_key =>
          if authHeader = service_key then
            match imapIndex "name" s with
            | Value.str service_name =>
                match imapIndex "permissions" s with
                | Value.list service_perms =>
                    Except.ok (some
                      { User := { DisplayName := service_name, Username := service_name,
                                  Status := 1 },
                        Permissions := Value.list service_perms,
                        Kind := "service" })
                | _ => Except.error "interface conversion: interface is not []interface"
            | _ => Except.error "interface conversion: interface is not string"
          else scanServices authHeader rest
      | _ => Except.error "interface conversion: interface is not string"
  | _ :: _ =>
      Except.error "interface conversion: interface is not map[interface]interface"

/-- Lines 193-194: the string handed to the token parser on the bearer path. -/
def bearerTokenString (authHeader : String) : String :=
  TrimSpace (Replace authHeader "Bearer" "" (-1))

/-- Claim `claims[key]`; the nil interface when absent. -/
def claimIndex (key : String) (claims : List (String × Value)) : Value :=
  match mapIndex key claims with
  | some v => v
  | none => Value.null

/-- Go `CheckAuth(r)`: the resolved principal and the error, with the log lines
written on the way. -/
def CheckAuth (env : Env) (r : Request) : Run (AuthorizedUser × Option String) :=
  let authHeader := r.Header.Get "Authorization"
  if Contains authHeader "Bearer" then
    let tokenString := bearerTokenString authHeader
    match env.ParseWithClaims tokenString (keyFunc env) with
    | Except.error p => ⟨[], Except.error p⟩
    | Except.ok (_, some err) => ⟨[Event.LogError err], Except.ok ({}, some err)⟩
    | Except.ok (token, none) =>
        if token.Valid then
          match claimIndex "uid" token.Claims with
          | Value.float64 uid =>
              match env.GetUserByID (toUint env uid) with
              | (_, some err) => ⟨[Event.LogError err], Except.ok ({}, some err)⟩
              | (user, none) =>
                  ⟨[], Except.ok
                    ({ User := user, Permissions := claimIndex "pms" token.Claims,
                       Kind := "user" }, none)⟩
          | _ => ⟨[], Except.error "interface conversion: interface is not float64"⟩
        else ⟨[], Except.ok ({}, some "invalid token")⟩
  else
    match env.services_auth_keys with
    | some (Value.list services) =>
        match scanServices authHeader services with
        | Except.error p => ⟨[], Except.error p⟩
        | Except.ok (some user) => ⟨[], Except.ok (user, none)⟩
        | Except.ok none => ⟨[], Except.ok ({}, some "invalid token")⟩
    | some _ => ⟨[], Except.error "interface conversion: interface is not []interface"⟩
    | none => ⟨[], Except.ok ({}, some "invalid token")⟩

/-! ## interceptor -/

/-- Request log of the interceptor (lines 68-75). -/
def requestLog (env : Env) (r : Request) : List Event :=
  if logEnabled env then
    match env.DumpRequest r with
    | (requestDump, some err) => [Event.LogError err, Event.LogInfo ("Request: \n" ++ requestDump)]
    | (requestDump, none) => [Event.LogInfo ("Request: \n" ++ requestDump)]
  else []

/-- The handler returned by Go `interceptor(f, checkAuth)`, run on one request.
The call of `f` is the event `Event.Call u t`. -/
def interceptor (env : Env) (checkAuth : Bool) (r : Request) : Run Unit :=
  let u : AuthorizedUser := {}
  let t : Int := 0
  if checkAuth then
    match CheckAuth env r with
    | ⟨ev, Except.error p⟩ => ⟨AddDefaultHeaders ++ ev, Except.error p⟩
    | ⟨ev, Except.ok (_, some err)⟩ =>
        ⟨AddDefaultHeaders ++ ev ++ JsonHttpRespond env Value.null err StatusUnauthorized,
          Except.ok ()⟩
    | ⟨ev, Except.ok (user, none)⟩ =>
        match Atoi (r.Header.Get "x-tenant-id") with
        | none =>
            ⟨AddDefaultHeaders ++ ev ++
              JsonHttpRespond env Value.null "x-tenant-id header is not set" StatusForbidden,
              Except.ok ()⟩
        | some tenantID =>
            if tenantID ≤ 0 then
              ⟨AddDefaultHeaders ++ ev ++
                JsonHttpRespond env Value.null "x-tenant-id header is not set" StatusForbidden,
                Except.ok ()⟩
            else
              ⟨AddDefaultHeaders ++ ev ++ requestLog env r ++ [Event.Call user tenantID],
                Except.ok ()⟩
  else
    ⟨AddDefaultHeaders ++ requestLog env r ++ [Event.Call u t], Except.ok ()⟩

/-- Whether an event is a call of the downstream handler. -/
def Event.isCall : Event → Bool
  | Event.Call _ _ => true
  | _ => false

/-- Whether an event writes the given status line. -/
def Event.isStatus (status : Int) : Event → Bool
  | Event.WriteHeader s => decide (s = status)
  | _ => false

/-- The calls of the downstream handler in a list of effects. -/
def handlerCalls (evs : List Event) : List Event :=
  evs.filter Event.isCall

/-! ## Token issuance -/

/-- Go `time.Time` as seconds since the epoch and nanoseconds within the second. -/
structure Time where
  sec : Int
  nsec : Int

/-- Conversion to `int64`: two's-complement wrap-around. -/
def wrap64 (x : Int) : Int :=
  (x + 2 ^ 63) % 2 ^ 64 - 2 ^ 63

/-- Go `time.Second` in nanoseconds. -/
def Second : Int := 1000000000

/-- Go `time.Duration(n) * time.Second`, an `int64` product. -/
def secondsDuration (n : Int) : Int :=
  wrap64 (n * Second)

/-- Go `Time.Add(d)`: the duration is split by truncated division into seconds
and nanoseconds, and the nanoseconds are normalised. -/
def Time.Add (t : Time) (d : Int) : Time :=
  let dsec := Int.tdiv d 1000000000
  let nsec := t.nsec + Int.tmod d 1000000000
  if nsec ≥ 1000000000 then ⟨t.sec + (dsec + 1), nsec - 1000000000⟩
  else if nsec < 0 then ⟨t.sec + (dsec - 1), nsec + 1000000000⟩
  else ⟨t.sec + dsec, nsec⟩

/-- Go `Time.Unix()`. -/
def Time.Unix (t : Time) : Int := t.sec

/-- Go `TokenData`: the subject id and the roles payload, as stored in the
claim map. -/
structure TokenData where
  UserId : Value
  Roles : Value

/-- The `jwt.MapClaims` literal of `GenerateToken`; `nowExp` and `nowIat` are
the two readings of `time.Now()`, in evaluation order. -/
def tokenClaims (lifetime : Int) (nowExp nowIat : Time) (user_data : TokenData) :
    List (String × Value) :=
  [("uid", user_data.UserId),
   ("pms", user_data.Roles),
   ("exp", Value.int (nowExp.Add (secondsDuration lifetime)).Unix),
   ("iat", Value.int nowIat.Unix)]

/-- Go `GenerateToken(user_data)`. -/
def GenerateToken (env : Env) (nowExp nowIat : Time) (user_data : TokenData) : Run String :=
  match mapIndex "lifetime" env.jwt with
  | some (Value.int lifetime) =>
      match mapIndex "secret" env.jwt with
      | some (Value.str secret) =>
          match env.SignedString (tokenClaims lifetime nowExp nowIat user_data) secret with
          | (tokenString, some err) => ⟨[Event.LogError err], Except.ok tokenString⟩
          | (tokenString, none) => ⟨[], Except.ok tokenString⟩
      | _ => ⟨[], Except.error "interface conversion: interface is not string"⟩
  | _ => ⟨[], Except.error "interface conversion: interface is not int"⟩

/-! ## Well-formed payloads and configuration -/

/-- A configured service credential `{name, key, permissions}`. -/
structure ServiceCredential where
  name : String
  key : String
  permissions : List Value

/-- The YAML map of a service credential as viper returns it. -/
def ServiceCredential.toValue (c : ServiceCredential) : Value :=
  Value.imap [(Value.str "name", Value.str c.name),
              (Value.str "key", Value.str c.key),
              (Value.str "permissions", Value.list c.permissions)]

/-- The value of `services_auth_keys` for a list of credentials; `none` when the
key is not set. -/
def servicesConfig (cfg : Option (List ServiceCredential)) : Option Value :=
  cfg.map fun creds => Value.list (creds.map ServiceCredential.toValue)

/-- The principal built from a matched service credential. -/
def servicePrincipal (c : ServiceCredential) : AuthorizedUser :=
  { User := { DisplayName := c.name, Username := c.name, Status := 1 },
    Permissions := Value.list c.permissions,
    Kind := "service" }

/-- The first credential whose key is exactly the header value. -/
def firstMatch (h : String) : List ServiceCredential → Option ServiceCredential
  | [] => none
  | c :: rest => if h = c.key then some c else firstMatch h rest

/-- Shape of the payload under which `HasPermission` evaluates its type
assertions successfully: for kind `"user"` a string-keyed map whose entry for
the tenant, when present, is a list; for kind `"service"` a list of strings; no
condition for any other kind. -/
def PayloadShaped (user : AuthorizedUser) (tenant_id : Int) : Prop :=
  (user.Kind = "user" →
    ∃ tenants, user.Permissions = Value.object tenants ∧
      ∀ v, mapIndex (Itoa tenant_id) tenants = some v → ∃ perms, v = Value.list perms) ∧
  (user.Kind ≠ "user" → user.Kind = "service" →
    ∃ perms : List String, user.Permissions = Value.list (perms.map Value.str))

/-- The permission is granted by the payload: for kind `"user"` the payload is
a string-keyed map whose entry for the tenant is a list that holds the
permission as a string; for kind `"service"` the payload is a list that holds
the permission as a string. No other kind is granted anything. -/
def Granted (user : AuthorizedUser) (permission : String) (tenant_id : Int) : Prop :=
  (user.Kind = "user" ∧
    ∃ tenants perms, user.Permissions = Value.object tenants ∧
      mapIndex (Itoa tenant_id) tenants = some (Value.list perms) ∧
      Value.str permission ∈ perms) ∨
  (user.Kind = "service" ∧
    ∃ perms, user.Permissions = Value.list perms ∧ Value.str permission ∈ perms)

/-- A configuration for concrete runs: a token parser that rejects every token
with the text it was given, an empty user store and logging switched off. -/
def sampleEnv (services : Option Value) : Env :=
  { jwt := [("secret", Value.str "s3cret"), ("lifetime", Value.int 3600)],
    log := [],
    services_auth_keys := services,
    ParseWithClaims := fun tokenString _ => Except.ok ({}, some tokenString),
    GetUserByID := fun _ => ({}, some "record not found"),
    DumpRequest := fun _ => ("", none),
    Marshal := fun _ => "",
    SignedString := fun _ _ => ("", none),
    uintOutOfRange := fun _ => 9223372036854775808 }

/-- A configuration whose token parser accepts every token with the claims
`{"uid": 1, "pms": ["read"]}` and whose user store knows every id. -/
def acceptingEnv : Env :=
  { jwt := [("secret", Value.str "s3cret"), ("lifetime", Value.int 3600)],
    log := [],
    services_auth_keys := none,
    ParseWithClaims := fun _ _ =>
      Except.ok ({ Valid := true,
                   Claims := [("uid", Value.float64 1),
                              ("pms", Value.list [Value.str "read"])] }, none),
    GetUserByID := fun _ => ({ DisplayName := "alice", Username := "alice", Status := 1 }, none),
    DumpRequest := fun _ => ("", none),
    Marshal := fun _ => "",
    SignedString := fun _ _ => ("", none),
    uintOutOfRange := fun _ => 9223372036854775808 }

/-! ## The token library -/

/-- Position of the highest set bit, by repeated halving; `fuel` bounds the
number of halvings. -/
def log2Fuel : Nat → Nat → Nat
  | 0, _ => 0
  | fuel + 1, n => if n < 2 then 0 else log2Fuel fuel (n / 2) + 1

/-- The float64 nearest to a natural number (ties to the even significand), as
JSON decoding into `interface{}` produces it: exact below 2^53, and above that
a multiple of the power of two that leaves a 53-bit significand. Numbers
beyond the finite range of float64 are outside the model. -/
def float64OfNat (n : Nat) : Nat :=
  if n < 2 ^ 53 then n
  else
    let e := log2Fuel n n - 52
    let q := n / 2 ^ e
    let r := n % 2 ^ e
    let half := 2 ^ (e - 1)
    if r > half ∨ (r = half ∧ q % 2 = 1) then (q + 1) * 2 ^ e else q * 2 ^ e

/-- The float64 nearest to an integer. -/
def float64OfInt (z : Int) : Rat :=
  match z with
  | Int.ofNat n => ((float64OfNat n : Nat) : Int)
  | Int.negSucc n => (-((float64OfNat (n + 1) : Nat) : Int) : Int)

mutual
/-- Modelled from the spec: the token library (jwt-go over encoding/json, not
part of this repository) carries the claim set as JSON, and `CheckAuth` reads
the claims back as generic values (line 211 asserts `float64` for "uid"). This
is the value that comes back for a value put in: an integer becomes the nearest
float64, lists and string-keyed maps are decoded element by element, strings,
booleans, null and float64 numbers are unchanged. A
`map[interface{}]interface{}`, which JSON cannot carry, comes back as null. -/
def jsonDecode : Value → Value
  | Value.int n => Value.float64 (float64OfInt n)
  | Value.list xs => Value.list (jsonDecodeList xs)
  | Value.object kvs => Value.object (jsonDecodeFields kvs)
  | Value.imap _ => Value.null
  | v => v
/-- Elementwise `jsonDecode` on a list. -/
def jsonDecodeList : List Value → List Value
  | [] => []
  | x :: xs => jsonDecode x :: jsonDecodeList xs
/-- Fieldwise `jsonDecode` on a string-keyed map. -/
def jsonDecodeFields : List (String × Value) → List (String × Value)
  | [] => []
  | (k, v) :: rest => (k, jsonDecode v) :: jsonDecodeFields rest
end

/-- Modelled from the spec: `Verify` of the Token Codec (section 4.1), which is
the token library and not part of this repository, applied at clock `now` to a
token that was signed over `claims` with the verifying secret. A token is valid
only before `expiresAt` (section 3), and the library also refuses a token used
before `issuedAt`: from `issuedAt` on and before `expiresAt` the decoded claims
are returned, otherwise verification fails; a claim set without integer "exp"
and "iat" is malformed. -/
def verifyClaims (claims : List (String × Value)) (now : Int) : Token × Option String :=
  match claimIndex "exp" claims, claimIndex "iat" claims with
  | Value.int exp, Value.int iat =>
      if now < iat then
        ({ Valid := false, Claims := jsonDecodeFields claims }, some "Token used before issued")
      else if now < exp then ({ Valid := true, Claims := jsonDecodeFields claims }, none)
      else ({ Valid := false, Claims := jsonDecodeFields claims }, some "Token is expired")
  | _, _ => ({}, some "token is malformed")

/-- A configuration whose token library has issued exactly one token, `tok`,
over `claims` with `secret`, and verifies at clock `now`: `tok` presented with
`secret` is verified by `verifyClaims`, anything else has an invalid signature.
The user store knows every id and records the id it was asked for in `Status`. -/
def issuingEnv (lifetime : Int) (secret tok : String) (claims : List (String × Value))
    (now : Int) : Env :=
  { jwt := [("secret", Value.str secret), ("lifetime", Value.int lifetime)],
    log := [],
    services_auth_keys := none,
    ParseWithClaims := fun tokenString key =>
      match key with
      | Except.error p => Except.error p
      | Except.ok k =>
          if tokenString = tok ∧ k = secret then Except.ok (verifyClaims claims now)
          else Except.ok ({}, some "signature is invalid"),
    GetUserByID := fun id => ({ DisplayName := "alice", Username := "alice", Status := id }, none),
    DumpRequest := fun _ => ("", none),
    Marshal := fun _ => "",
    SignedString := fun _ _ => (tok, none),
    uintOutOfRange := fun _ => 9223372036854775808 }

/-! ## Lemmas on the permission loops -/

theorem userLoop_strings (permission : String) (l : List String) (b : Bool) :
    userLoop permission (l.map Value.str) b = (b || decide (permission ∈ l)) := by
  induction l generalizing b with
  | nil => simp [userLoop]
  | cons s rest ih =>
    have h : userLoop permission ((s :: rest).map Value.str) b =
        userLoop permission (rest.map Value.str)
          (if ifaceEqString (Value.str s) permission then true else b) := by
      simp [userLoop, List.foldl]
    rw [h, ih]
    by_cases hs : s = permission
    · subst hs; simp [ifaceEqString]
    · have hs2 : ¬ permission = s := fun e => hs e.symm
      simp [ifaceEqString, hs, hs2]

theorem serviceLoop_strings (permission : String) (l : List String) (b : Bool) :
    serviceLoop permission (l.map Value.str) b = Except.ok (b || decide (permission ∈ l)) := by
  induction l generalizing b with
  | nil => simp [serviceLoop]
  | cons s rest ih =>
    have h : serviceLoop permission ((s :: rest).map Value.str) b =
        serviceLoop permission (rest.map Value.str) (if s = permission then true else b) := by
      simp [serviceLoop]
    rw [h, ih]
    by_cases hs : s = permission
    · subst hs; simp
    · have hs2 : ¬ permission = s := fun e => hs e.symm
      simp [hs, hs2]

theorem mapIndex_userPayload (key : String) (m : List (String × List String)) :
    mapIndex key (m.map fun kv => (kv.1, Value.list (kv.2.map Value.str))) =
      (tenantEntry key m).map fun l => Value.list (l.map Value.str) := by
  induction m with
  | nil => rfl
  | cons kv rest ih =>
    obtain ⟨k, l⟩ := kv
    by_cases hk : k = key
    · simp [mapIndex, tenantEntry, hk]
    · simp [mapIndex, tenantEntry, hk, ih]

theorem ifaceEqString_iff (v : Value) (permission : String) :
    ifaceEqString v permission = true ↔ v = Value.str permission := by
  cases v <;> simp [ifaceEqString]

theorem userLoop_iff (permission : String) (perms : List Value) (b : Bool) :
    userLoop permission perms b = true ↔ (b = true ∨ Value.str permission ∈ perms) := by
  induction perms generalizing b with
  | nil => simp [userLoop]
  | cons v rest ih =>
    have h : userLoop permission (v :: rest) b =
        userLoop permission rest (if ifaceEqString v permission then true else b) := by
      simp [userLoop, List.foldl]
    rw [h, ih]
    by_cases hv : ifaceEqString v permission = true
    · have hv2 := (ifaceEqString_iff v permission).mp hv
      subst hv2
      simp [hv]
    · have hv2 : ¬ Value.str permission = v :=
        fun e => hv ((ifaceEqString_iff v permission).mpr e.symm)
      simp [hv, hv2]

theorem serviceLoop_iff (permission : String) (perms : List Value) (b r : Bool)
    (h : serviceLoop permission perms b = Except.ok r) :
    r = true ↔ (b = true ∨ Value.str permission ∈ perms) := by
  induction perms generalizing b with
  | nil =>
    simp [serviceLoop] at h
    simp [h]
  | cons v rest ih =>
    cases v with
    | str s =>
      have h2 : serviceLoop permission rest (if s = permission then true else b) =
          Except.ok r := by
        simpa [serviceLoop] using h
      rw [ih _ h2]
      by_cases hs : s = permission
      · subst hs; simp
      · have hs2 : ¬ permission = s := fun e => hs e.symm
        simp [hs, hs2]
    | null => simp [serviceLoop] at h
    | bool _ => simp [serviceLoop] at h
    | int _ => simp [serviceLoop] at h
    | float64 _ => simp [serviceLoop] at h
    | list _ => simp [serviceLoop] at h
    | object _ => simp [serviceLoop] at h
    | imap _ => simp [serviceLoop] at h

/-- The boolean `HasPermission` returns is true exactly when the payload grants
the permission. -/
theorem HasPermission_ok_value (user : AuthorizedUser) (p : String) (t : Int) (b : Bool)
    (h : HasPermission user p t = Except.ok b) : b = true ↔ Granted user p t := by
  obtain ⟨u, perms, kind⟩ := user
  have hus : ¬ ("user" = "service") := by decide
  by_cases hu : kind = "user"
  · subst hu
    cases perms with
    | object tenants =>
      cases hidx : mapIndex (Itoa t) tenants with
      | none =>
        simp [HasPermission, hidx] at h
        subst h
        simp [Granted, hidx, hus]
      | some v =>
        cases v with
        | list xs =>
          simp [HasPermission, hidx] at h
          subst h
          rw [userLoop_iff]
          simp [Granted, hidx, hus]
        | null => simp [HasPermission, hidx] at h
        | bool _ => simp [HasPermission, hidx] at h
        | int _ => simp [HasPermission, hidx] at h
        | float64 _ => simp [HasPermission, hidx] at h
        | str _ => simp [HasPermission, hidx] at h
        | object _ => simp [HasPermission, hidx] at h
        | imap _ => simp [HasPermission, hidx] at h
    | null => simp [HasPermission] at h
    | bool _ => simp [HasPermission] at h
    | int _ => simp [HasPermission] at h
    | float64 _ => simp [HasPermission] at h
    | str _ => simp [HasPermission] at h
    | list _ => simp [HasPermission] at h
    | imap _ => simp [HasPermission] at h
  · by_cases hs : kind = "service"
    · subst hs
      cases perms with
      | list xs =>
        simp only [HasPermission, hu, if_false, if_true] at h
        rw [serviceLoop_iff p xs false b h]
        simp [Granted, hu]
      | null => simp [HasPermission, hu] at h
      | bool _ => simp [HasPermission, hu] at h
      | int _ => simp [HasPermission, hu] at h
      | float64 _ => simp [HasPermission, hu] at h
      | str _ => simp [HasPermission, hu] at h
      | object _ => simp [HasPermission, hu] at h
      | imap _ => simp [HasPermission, hu] at h
    · simp [HasPermission, hu, hs] at h
      subst h
      simp [Granted, hu, hs]

/-- A successful service loop means every element was a string. -/
theorem serviceLoop_ok_strings (permission : String) (perms : List Value) (b r : Bool)
    (h : serviceLoop permission perms b = Except.ok r) :
    ∃ l : List String, perms = l.map Value.str := by
  induction perms generalizing b with
  | nil => exact ⟨[], rfl⟩
  | cons v rest ih =>
    cases v with
    | str s =>
      have h2 : serviceLoop permission rest (if s = permission then true else b) =
          Except.ok r := by
        simpa [serviceLoop] using h
      obtain ⟨l, hl⟩ := ih _ h2
      exact ⟨s :: l, by simp [hl]⟩
    | null => simp [serviceLoop] at h
    | bool _ => simp [serviceLoop] at h
    | int _ => simp [serviceLoop] at h
    | float64 _ => simp [serviceLoop] at h
    | list _ => simp [serviceLoop] at h
    | object _ => simp [serviceLoop] at h
    | imap _ => simp [serviceLoop] at h

/-! ## HasPermission -/

/-- C1: for a principal of kind "user" whose payload maps tenant-id strings to
lists of permission strings, `HasPermission` returns false when the map has no
entry under the decimal string of the tenant, and otherwise returns true
exactly when the permission is a member of that tenant's list (membership only:
order and duplicates play no part). With payload {"1": ["read"], "2": ["write"]}
the answers for ("read", 1), ("write", 1), ("read", 3) are true, false, false. -/
theorem HasPermission_user_membership :
    (∀ (u : User) (m : List (String × List String)) (p : String) (t : Int),
      HasPermission { User := u, Permissions := userPayload m, Kind := "user" } p t =
        Except.ok (match tenantEntry (Itoa t) m with
                   | none => false
                   | some l => decide (p ∈ l))) ∧
    HasPermission { Permissions := userPayload [("1", ["read"]), ("2", ["write"])],
                    Kind := "user" } "read" 1 = Except.ok true ∧
    HasPermission { Permissions := userPayload [("1", ["read"]), ("2", ["write"])],
                    Kind := "user" } "write" 1 = Except.ok false ∧
    HasPermission { Permissions := userPayload [("1", ["read"]), ("2", ["write"])],
                    Kind := "user" } "read" 3 = Except.ok false := by
  refine ⟨?_, rfl, rfl, rfl⟩
  intro u m p t
  have hidx := mapIndex_userPayload (Itoa t) m
  cases hte : tenantEntry (Itoa t) m with
  | none =>
    rw [hte] at hidx
    simp only [HasPermission, userPayload, if_true]
    rw [hidx]
    rfl
  | some l =>
    rw [hte] at hidx
    simp only [HasPermission, userPayload, if_true]
    rw [hidx]
    simp [userLoop_strings]

/-- C6: for a principal of kind "service" whose payload is a flat list of
permission strings, `HasPermission` gives the same answer for any two tenant
scopes, and the answer is true exactly when the permission is a member of the
list; with payload ["read", "write"] the answer for "read" is true for every
tenant. -/
theorem HasPermission_service_tenant_invariant :
    (∀ (u : User) (l : List String) (p : String) (t1 t2 : Int),
      HasPermission { User := u, Permissions := servicePayload l, Kind := "service" } p t1 =
        HasPermission { User := u, Permissions := servicePayload l, Kind := "service" } p t2 ∧
      HasPermission { User := u, Permissions := servicePayload l, Kind := "service" } p t1 =
        Except.ok (decide (p ∈ l))) ∧
    (∀ t : Int,
      HasPermission { Permissions := servicePayload ["read", "write"], Kind := "service" }
        "read" t = Except.ok true) := by
  have key : ∀ (u : User) (l : List String) (p : String) (t : Int),
      HasPermission { User := u, Permissions := servicePayload l, Kind := "service" } p t =
        Except.ok (decide (p ∈ l)) := by
    intro u l p t
    have hne : ¬ ("service" = "user") := by decide
    simp [HasPermission, servicePayload, hne, serviceLoop_strings]
  refine ⟨fun u l p t1 t2 => ⟨?_, key u l p t1⟩, fun t => ?_⟩
  · rw [key u l p t1, key u l p t2]
  · rw [key]
    simp

/-- C7 (as stated, refuted): a principal of kind "user" whose payload is a list
(for instance the "pms" claim ["read"] of a verified token, which `CheckAuth`
copies unchecked) makes `HasPermission` panic on its type assertion, so it does
not return a boolean for every principal. -/
theorem HasPermission_panics_on_list_payload :
    (CheckAuth acceptingEnv { Header := [("Authorization", ["Bearer t"])] }).result =
      Except.ok ({ User := { DisplayName := "alice", Username := "alice", Status := 1 },
                   Permissions := Value.list [Value.str "read"],
                   Kind := "user" }, none) ∧
    HasPermission { User := { DisplayName := "alice", Username := "alice", Status := 1 },
                    Permissions := Value.list [Value.str "read"],
                    Kind := "user" } "read" 1 =
      Except.error "interface conversion: interface is not map[string]interface" ∧
    ¬ (∀ (user : AuthorizedUser) (p : String) (t : Int),
        ∃ b, HasPermission user p t = Except.ok b) := by
  refine ⟨rfl, rfl, ?_⟩
  intro h
  obtain ⟨b, hb⟩ := h { Permissions := Value.list [Value.str "read"], Kind := "user" } "read" 1
  simp [HasPermission] at hb

/-- C7 (amended): `HasPermission` returns a boolean, rather than panicking on
a type assertion, exactly when the payload has the shape its kind requires: for
kind "user" a string-keyed map whose entry for the tenant, when present, is a
list; for kind "service" a list of strings; for any other kind always. Whenever
it returns, the boolean is true exactly when the payload grants the permission
(so it is false when the permission is absent), and for a kind that is neither
"user" nor "service" the result is false. -/
theorem HasPermission_returns_iff_shaped (user : AuthorizedUser) (p : String) (t : Int) :
    ((∃ b, HasPermission user p t = Except.ok b) ↔ PayloadShaped user t) ∧
    ((∃ b, HasPermission user p t = Except.ok b ∧ (b = true ↔ Granted user p t)) ∨
      (∃ msg, HasPermission user p t = Except.error msg)) ∧
    (user.Kind = "user" ∨ user.Kind = "service" ∨
      HasPermission user p t = Except.ok false) := by
  refine ⟨?_, ?_, ?_⟩
  rotate_left
  · cases h : HasPermission user p t with
    | error msg => exact Or.inr ⟨msg, rfl⟩
    | ok b => exact Or.inl ⟨b, rfl, HasPermission_ok_value user p t b h⟩
  · by_cases hu : user.Kind = "user"
    · exact Or.inl hu
    · by_cases hs : user.Kind = "service"
      · exact Or.inr (Or.inl hs)
      · exact Or.inr (Or.inr (by simp [HasPermission, hu, hs]))
  obtain ⟨u, perms, kind⟩ := user
  by_cases hu : kind = "user"
  · subst hu
    constructor
    · rintro ⟨b, hb⟩
      refine ⟨fun _ => ?_, fun hne => absurd rfl hne⟩
      cases perms with
      | object tenants =>
        refine ⟨tenants, rfl, ?_⟩
        intro v hv
        simp only [HasPermission, if_true, hv] at hb
        cases v with
        | list xs => exact ⟨xs, rfl⟩
        | null => simp at hb
        | bool _ => simp at hb
        | int _ => simp at hb
        | float64 _ => simp at hb
        | str _ => simp at hb
        | object _ => simp at hb
        | imap _ => simp at hb
      | null => simp [HasPermission] at hb
      | bool _ => simp [HasPermission] at hb
      | int _ => simp [HasPermission] at hb
      | float64 _ => simp [HasPermission] at hb
      | str _ => simp [HasPermission] at hb
      | list _ => simp [HasPermission] at hb
      | imap _ => simp [HasPermission] at hb
    · rintro ⟨h1, _⟩
      obtain ⟨tenants, hperm, hent⟩ := h1 rfl
      simp only at hperm
      subst hperm
      cases hidx : mapIndex (Itoa t) tenants with
      | none => exact ⟨false, by simp [HasPermission, hidx]⟩
      | some v =>
        obtain ⟨xs, hxs⟩ := hent v hidx
        subst hxs
        exact ⟨userLoop p xs false, by simp [HasPermission, hidx]⟩
  · by_cases hs : kind = "service"
    · subst hs
      constructor
      · rintro ⟨b, hb⟩
        refine ⟨fun h => absurd h hu, fun _ _ => ?_⟩
        cases perms with
        | list xs =>
          simp only [HasPermission, hu, if_false, if_true] at hb
          obtain ⟨l, hl⟩ := serviceLoop_ok_strings p xs false b hb
          exact ⟨l, by simp [hl]⟩
        | null => simp [HasPermission, hu] at hb
        | bool _ => simp [HasPermission, hu] at hb
        | int _ => simp [HasPermission, hu] at hb
        | float64 _ => simp [HasPermission, hu] at hb
        | str _ => simp [HasPermission, hu] at hb
        | object _ => simp [HasPermission, hu] at hb
        | imap _ => simp [HasPermission, hu] at hb
      · rintro ⟨_, h2⟩
        obtain ⟨l, hl⟩ := h2 hu rfl
        simp only at hl
        subst hl
        exact ⟨false || decide (p ∈ l), by
          simp only [HasPermission, hu, if_false, if_true]
          exact serviceLoop_strings p l false⟩
    · constructor
      · intro _
        exact ⟨fun h => absurd h hu, fun _ h => absurd h hs⟩
      · intro _
        exact ⟨false, by simp [HasPermission, hu, hs]⟩

/-! ## Lemmas on CheckAuth and the interceptor -/

theorem scanServices_credentials (h : String) (creds : List ServiceCredential) :
    scanServices h (creds.map ServiceCredential.toValue) =
      Except.ok ((firstMatch h creds).map servicePrincipal) := by
  induction creds with
  | nil => rfl
  | cons c rest ih =>
    by_cases hk : h = c.key
    · simp [scanServices, ServiceCredential.toValue, imapIndex, firstMatch, hk,
        servicePrincipal]
    · simp [scanServices, ServiceCredential.toValue, imapIndex, firstMatch, hk]
      simpa [ServiceCredential.toValue] using ih

theorem firstMatch_none_iff (h : String) (creds : List ServiceCredential) :
    firstMatch h creds = none ↔ ∀ c ∈ creds, c.key ≠ h := by
  induction creds with
  | nil => simp [firstMatch]
  | cons c rest ih =>
    by_cases hk : h = c.key
    · simp [firstMatch, hk]
    · have hk2 : ¬ c.key = h := fun e => hk e.symm
      simp [firstMatch, hk, hk2, ih]

/-- On the service-key path `CheckAuth` writes no log line and returns the
principal of the first matching credential, or the error "invalid token". -/
theorem CheckAuth_of_service_config (env : Env) (r : Request)
    (cfg : Option (List ServiceCredential))
    (hcfg : env.services_auth_keys = servicesConfig cfg)
    (hb : Contains (r.Header.Get "Authorization") "Bearer" = false) :
    CheckAuth env r =
      ⟨[], Except.ok
        (match firstMatch (r.Header.Get "Authorization") (cfg.getD []) with
         | some c => (servicePrincipal c, none)
         | none => ({}, some "invalid token"))⟩ := by
  cases cfg with
  | none =>
    simp [CheckAuth, hb, hcfg, servicesConfig, firstMatch]
  | some creds =>
    simp only [CheckAuth, hb, hcfg, servicesConfig, Option.map, Option.getD]
    rw [scanServices_credentials]
    cases firstMatch (r.Header.Get "Authorization") creds <;> simp

theorem Header_Get_absent (h : Header) (key : String)
    (habs : Header.values h (CanonicalMIMEHeaderKey key) = []) : Header.Get h key = "" := by
  simp [Header.Get, habs]

theorem handlerCalls_append (a b : List Event) :
    handlerCalls (a ++ b) = handlerCalls a ++ handlerCalls b := by
  simp [handlerCalls]

theorem handlerCalls_JsonHttpRespond (env : Env) (respond : Value) (error : String)
    (status : Int) : handlerCalls (JsonHttpRespond env respond error status) = [] := by
  unfold JsonHttpRespond
  by_cases hl : logEnabled env = true <;> by_cases he : error = "" <;>
    simp [handlerCalls, hl, he, Event.isCall]

theorem handlerCalls_requestLog (env : Env) (r : Request) :
    handlerCalls (requestLog env r) = [] := by
  unfold requestLog
  by_cases hl : logEnabled env = true
  · rcases hd : env.DumpRequest r with ⟨dump, _ | err⟩ <;>
      simp [handlerCalls, hl, hd, Event.isCall]
  · simp [handlerCalls, hl]

theorem isStatus_requestLog (env : Env) (r : Request) (status : Int) :
    ∀ e ∈ requestLog env r, e.isStatus status = false := by
  unfold requestLog
  by_cases hl : logEnabled env = true
  · rcases hd : env.DumpRequest r with ⟨dump, _ | err⟩ <;>
      simp [hl, hd, Event.isStatus]
  · simp [hl]

/-- A successful credential resolution writes no log line. -/
theorem CheckAuth_success_events (env : Env) (r : Request) (user : AuthorizedUser)
    (h : (CheckAuth env r).result = Except.ok (user, none)) :
    (CheckAuth env r).events = [] := by
  unfold CheckAuth at h ⊢
  simp only at h ⊢
  split at h
  · split at h
    · simp_all
    · simp_all
    · split at h
      · split at h
        · split at h
          · simp_all
          · simp_all
        · simp_all
      · simp_all
  · split at h
    · split at h <;> simp_all
    · simp_all
    · simp_all

/-! ## Credential resolution -/

/-- C5: for an Authorization header value that does not contain "Bearer" and
any configured list of service credentials (or none configured), `CheckAuth`
returns the principal of kind "service" carrying the name and permissions of
the first credential whose key equals the header, and otherwise fails with the
error "invalid token"; it succeeds exactly when some credential's key equals
the header. -/
theorem CheckAuth_service_key (env : Env) (r : Request)
    (cfg : Option (List ServiceCredential))
    (hcfg : env.services_auth_keys = servicesConfig cfg)
    (hb : Contains (r.Header.Get "Authorization") "Bearer" = false) :
    CheckAuth env r =
      ⟨[], Except.ok
        (match firstMatch (r.Header.Get "Authorization") (cfg.getD []) with
         | some c =>
             ({ User := { DisplayName := c.name, Username := c.name, Status := 1 },
                Permissions := Value.list c.permissions,
                Kind := "service" }, none)
         | none => ({}, some "invalid token"))⟩ ∧
    ((∃ u, (CheckAuth env r).result = Except.ok (u, none)) ↔
      ∃ c ∈ cfg.getD [], c.key = r.Header.Get "Authorization") := by
  have hmain := CheckAuth_of_service_config env r cfg hcfg hb
  refine ⟨?_, ?_⟩
  · rw [hmain]
    cases firstMatch (r.Header.Get "Authorization") (cfg.getD []) <;> rfl
  · rw [hmain]
    cases hfm : firstMatch (r.Header.Get "Authorization") (cfg.getD []) with
    | none =>
      have hall := (firstMatch_none_iff _ _).mp hfm
      constructor
      · rintro ⟨u, hu⟩
        simp at hu
      · rintro ⟨c, hc, hkey⟩
        exact absurd hkey (hall c hc)
    | some c =>
      constructor
      · intro _
        by_contra hno
        have hnone : firstMatch (r.Header.Get "Authorization") (cfg.getD []) = none :=
          (firstMatch_none_iff _ _).mpr (fun c hc hkey => hno ⟨c, hc, hkey⟩)
        rw [hfm] at hnone
        exact Option.noConfusion hnone
      · intro _
        exact ⟨servicePrincipal c, rfl⟩

/-- C5 at a concrete input: with credentials keyed "k1" and "k2" (twice) and the
header "k2", the principal is that of the first credential keyed "k2". -/
theorem CheckAuth_service_key_witness :
    CheckAuth
        (sampleEnv (servicesConfig (some [⟨"a", "k1", []⟩, ⟨"b", "k2", [Value.str "read"]⟩,
          ⟨"c", "k2", []⟩])))
        { Header := [("Authorization", ["k2"])] } =
      ⟨[], Except.ok
        ({ User := { DisplayName := "b", Username := "b", Status := 1 },
           Permissions := Value.list [Value.str "read"],
           Kind := "service" }, none)⟩ :=
  (CheckAuth_service_key
    (sampleEnv (servicesConfig (some [⟨"a", "k1", []⟩, ⟨"b", "k2", [Value.str "read"]⟩,
      ⟨"c", "k2", []⟩])))
    { Header := [("Authorization", ["k2"])] }
    (some [⟨"a", "k1", []⟩, ⟨"b", "k2", [Value.str "read"]⟩, ⟨"c", "k2", []⟩])
    rfl rfl).1

/-- C3 (as stated, refuted): with a configured service credential whose key is
the empty string, a request without an Authorization header resolves to that
service; the interceptor then reads x-tenant-id and calls the downstream
handler, and writes no Unauthorized status. -/
theorem interceptor_empty_key_admits_missing_header :
    CheckAuth (sampleEnv (servicesConfig (some [⟨"svc", "", [Value.str "read"]⟩])))
        { Header := [("X-Tenant-Id", ["1"])] } =
      ⟨[], Except.ok
        ({ User := { DisplayName := "svc", Username := "svc", Status := 1 },
           Permissions := Value.list [Value.str "read"],
           Kind := "service" }, none)⟩ ∧
    interceptor (sampleEnv (servicesConfig (some [⟨"svc", "", [Value.str "read"]⟩]))) true
        { Header := [("X-Tenant-Id", ["1"])] } =
      ⟨[Event.SetHeader "Content-Type" "application/json; charset=UTF-8",
        Event.SetHeader "Access-Control-Allow-Origin" "*",
        Event.Call
          { User := { DisplayName := "svc", Username := "svc", Status := 1 },
            Permissions := Value.list [Value.str "read"],
            Kind := "service" } 1],
       Except.ok ()⟩ := by
  exact ⟨rfl, rfl⟩

/-- C3 (amended): for a request whose Authorization header is absent or empty
and a configured list of service credentials none of whose keys is the empty
string (or no list configured), `CheckAuth` fails with "invalid token" without
calling the token parser, and the interceptor with checkAuth = true writes the
default headers, status 401 and the error body, and nothing else: the outcome
does not depend on x-tenant-id, and the downstream handler is not called. -/
theorem interceptor_missing_authorization (env : Env) (r : Request)
    (cfg : Option (List ServiceCredential))
    (hcfg : env.services_auth_keys = servicesConfig cfg)
    (hkeys : ∀ c ∈ cfg.getD [], c.key ≠ "")
    (hh : Header.values r.Header (CanonicalMIMEHeaderKey "Authorization") = [] ∨
      r.Header.Get "Authorization" = "") :
    CheckAuth env r = ⟨[], Except.ok ({}, some "invalid token")⟩ ∧
    interceptor env true r =
      ⟨AddDefaultHeaders ++ JsonHttpRespond env Value.null "invalid token" 401,
        Except.ok ()⟩ ∧
    Event.WriteHeader 401 ∈ (interceptor env true r).events ∧
    Event.Encode (errorBody "invalid token") ∈ (interceptor env true r).events ∧
    handlerCalls (interceptor env true r).events = [] := by
  have hget : r.Header.Get "Authorization" = "" := by
    rcases hh with habs | hemp
    · exact Header_Get_absent _ _ habs
    · exact hemp
  have hb : Contains (r.Header.Get "Authorization") "Bearer" = false := by
    rw [hget]; rfl
  have hauth : CheckAuth env r = ⟨[], Except.ok ({}, some "invalid token")⟩ := by
    rw [CheckAuth_of_service_config env r cfg hcfg hb, hget]
    have hnone : firstMatch "" (cfg.getD []) = none :=
      (firstMatch_none_iff _ _).mpr hkeys
    rw [hnone]
  have hrun : interceptor env true r =
      ⟨AddDefaultHeaders ++ JsonHttpRespond env Value.null "invalid token" 401,
        Except.ok ()⟩ := by
    simp [interceptor, hauth, StatusUnauthorized]
  refine ⟨hauth, hrun, ?_, ?_, ?_⟩
  · rw [hrun]
    simp [JsonHttpRespond]
  · rw [hrun]
    simp [JsonHttpRespond]
  · rw [hrun]
    simp only [handlerCalls_append, handlerCalls_JsonHttpRespond]
    rfl

/-- C3 (amended) at a concrete input: one credential keyed "k", a request that
carries only x-tenant-id. -/
theorem interceptor_missing_authorization_witness :
    interceptor (sampleEnv (servicesConfig (some [⟨"svc", "k", []⟩]))) true
        { Header := [("X-Tenant-Id", ["1"])] } =
      ⟨AddDefaultHeaders ++
        JsonHttpRespond (sampleEnv (servicesConfig (some [⟨"svc", "k", []⟩]))) Value.null
          "invalid token" 401,
        Except.ok ()⟩ :=
  (interceptor_missing_authorization
    (sampleEnv (servicesConfig (some [⟨"svc", "k", []⟩])))
    { Header := [("X-Tenant-Id", ["1"])] }
    (some [⟨"svc", "k", []⟩])
    rfl
    (by
      intro c hc
      simp only [Option.getD, List.mem_singleton] at hc
      subst hc
      decide)
    (Or.inl rfl)).2.1

/-! ## Tenant validation and dispatch -/

/-- C2: when `CheckAuth` resolves the credential without error and the
x-tenant-id header is absent, is not an integer, or is an integer that is zero
or negative, the interceptor with checkAuth = true writes the default headers,
status 403 and the error body "x-tenant-id header is not set", and does not
call the downstream handler. -/
theorem interceptor_rejects_bad_tenant (env : Env) (r : Request) (user : AuthorizedUser)
    (hauth : (CheckAuth env r).result = Except.ok (user, none))
    (hten : Header.values r.Header (CanonicalMIMEHeaderKey "x-tenant-id") = [] ∨
      Atoi (r.Header.Get "x-tenant-id") = none ∨
      ∃ n, Atoi (r.Header.Get "x-tenant-id") = some n ∧ n ≤ 0) :
    interceptor env true r =
      ⟨AddDefaultHeaders ++
        JsonHttpRespond env Value.null "x-tenant-id header is not set" 403,
        Except.ok ()⟩ ∧
    Event.WriteHeader 403 ∈ (interceptor env true r).events ∧
    Event.Encode (errorBody "x-tenant-id header is not set") ∈
      (interceptor env true r).events ∧
    handlerCalls (interceptor env true r).events = [] := by
  have hev := CheckAuth_success_events env r user hauth
  have hrun0 : CheckAuth env r = ⟨[], Except.ok (user, none)⟩ := by
    cases hc : CheckAuth env r with
    | mk ev res =>
      rw [hc] at hauth hev
      simp only at hauth hev
      rw [hauth, hev]
  have hrun : interceptor env true r =
      ⟨AddDefaultHeaders ++
        JsonHttpRespond env Value.null "x-tenant-id header is not set" 403,
        Except.ok ()⟩ := by
    rcases hten with habs | hnone | ⟨n, hn, hle⟩
    · have hget := Header_Get_absent _ _ habs
      have hatoi : Atoi (r.Header.Get "x-tenant-id") = none := by
        rw [hget]; rfl
      simp [interceptor, hrun0, hatoi, StatusForbidden]
    · simp [interceptor, hrun0, hnone, StatusForbidden]
    · simp [interceptor, hrun0, hn, hle, StatusForbidden]
  refine ⟨hrun, ?_, ?_, ?_⟩
  · rw [hrun]
    simp [JsonHttpRespond]
  · rw [hrun]
    simp [JsonHttpRespond]
  · rw [hrun]
    simp only [handlerCalls_append, handlerCalls_JsonHttpRespond]
    rfl

/-- C2 at a concrete input: a valid service key with x-tenant-id "0". -/
theorem interceptor_rejects_bad_tenant_witness :
    Atoi "0" = some 0 ∧
    interceptor (sampleEnv (servicesConfig (some [⟨"svc", "k", []⟩]))) true
        { Header := [("Authorization", ["k"]), ("X-Tenant-Id", ["0"])] } =
      ⟨AddDefaultHeaders ++
        JsonHttpRespond (sampleEnv (servicesConfig (some [⟨"svc", "k", []⟩]))) Value.null
          "x-tenant-id header is not set" 403,
        Except.ok ()⟩ :=
  ⟨rfl,
   (interceptor_rejects_bad_tenant
      (sampleEnv (servicesConfig (some [⟨"svc", "k", []⟩])))
      { Header := [("Authorization", ["k"]), ("X-Tenant-Id", ["0"])] }
      (servicePrincipal ⟨"svc", "k", []⟩)
      rfl
      (Or.inr (Or.inr ⟨0, rfl, le_refl 0⟩))).1⟩

/-- C4: with checkAuth = false the interceptor, for every request and every
configuration, writes the default headers, possibly the request log, and calls
the downstream handler exactly once with the zero-valued principal and tenant
scope 0; it writes no status line (so no 401 and no 403) and does not panic. -/
theorem interceptor_no_auth_dispatches (env : Env) (r : Request) :
    interceptor env false r =
      ⟨AddDefaultHeaders ++ requestLog env r ++ [Event.Call {} 0], Except.ok ()⟩ ∧
    handlerCalls (interceptor env false r).events = [Event.Call {} 0] ∧
    (∀ e ∈ (interceptor env false r).events, ∀ status : Int, e.isStatus status = false) := by
  have hrun : interceptor env false r =
      ⟨AddDefaultHeaders ++ requestLog env r ++ [Event.Call {} 0], Except.ok ()⟩ := by
    simp [interceptor]
  refine ⟨hrun, ?_, ?_⟩
  · rw [hrun]
    simp only [handlerCalls_append, handlerCalls_requestLog]
    rfl
  · rw [hrun]
    intro e he status
    simp only [List.mem_append, List.mem_singleton] at he
    rcases he with (hd | hl) | hc
    · simp [AddDefaultHeaders] at hd
      rcases hd with hd | hd <;> subst hd <;> rfl
    · exact isStatus_requestLog env r status e hl
    · subst hc
      rfl

/-! ## Token expiry -/

theorem tmod_bounds (d : Int) :
    -1000000000 < Int.tmod d 1000000000 ∧ Int.tmod d 1000000000 < 1000000000 := by
  have hup := Int.tmod_lt_of_pos d (show (0 : Int) < 1000000000 by decide)
  have hneg := Int.tmod_lt_of_pos (-d) (show (0 : Int) < 1000000000 by decide)
  have h1 := Int.tmod_def d 1000000000
  have h2 := Int.tmod_def (-d) 1000000000
  rw [Int.neg_tdiv] at h2
  constructor <;> omega

/-- Seconds of `now.Add(d)`: within two seconds' worth of nanoseconds of the
exact sum. -/
theorem Add_Unix_bounds (t : Time) (d : Int)
    (hns : 0 ≤ t.nsec ∧ t.nsec < 1000000000) :
    -2000000000 < d - 1000000000 * ((t.Add d).Unix - t.sec) ∧
      d - 1000000000 * ((t.Add d).Unix - t.sec) < 2000000000 := by
  have hb := tmod_bounds d
  have hdef := Int.tmod_def d 1000000000
  unfold Time.Add Time.Unix
  simp only
  split
  · simp only; omega
  · split
    · simp only; omega
    · simp only; omega

theorem Add_Unix_exact (t : Time) (n : Int)
    (hns : 0 ≤ t.nsec ∧ t.nsec < 1000000000) :
    (t.Add (n * 1000000000)).Unix = t.sec + n := by
  have hq : Int.tdiv (n * 1000000000) 1000000000 = n :=
    Int.mul_tdiv_cancel n (by decide)
  have hm : Int.tmod (n * 1000000000) 1000000000 = 0 := Int.mul_tmod_left n 1000000000
  unfold Time.Add Time.Unix
  simp only [hq, hm]
  split
  · omega
  · split
    · omega
    · rfl

/-- C9 (as stated, refuted): with lifetime 10000000000 seconds, a value of a
64-bit int, and the clock at 1700000000, the product with `time.Second`
overflows int64 and "exp" is -6746744074, not 1700000000 + 10000000000. -/
theorem expiry_overflows_int64 :
    claimIndex "exp"
        (tokenClaims 10000000000 ⟨1700000000, 0⟩ ⟨1700000000, 0⟩
          ⟨Value.int 1, Value.null⟩) =
      Value.int (-6746744074) ∧
    claimIndex "exp"
        (tokenClaims 10000000000 ⟨1700000000, 0⟩ ⟨1700000000, 0⟩
          ⟨Value.int 1, Value.null⟩) ≠
      Value.int (1700000000 + 10000000000) := by
  have h : claimIndex "exp"
        (tokenClaims 10000000000 ⟨1700000000, 0⟩ ⟨1700000000, 0⟩
          ⟨Value.int 1, Value.null⟩) = Value.int (-6746744074) := by rfl
  refine ⟨h, ?_⟩
  rw [h]
  intro hc
  injection hc with hc
  revert hc
  decide

/-- C9 (amended): for a 64-bit lifetime L and clock readings with nanoseconds in
[0, 10^9), the claim set built by `GenerateToken` has "iat" equal to the second
clock reading, and "exp" equal to the first clock reading plus L exactly when
-9223372036 ≤ L ≤ 9223372036, the lifetimes whose nanosecond count fits in
int64. -/
theorem tokenClaims_expiry (L : Int) (nowExp nowIat : Time) (d : TokenData)
    (hmach : -9223372036854775808 ≤ L ∧ L ≤ 9223372036854775807)
    (hns : 0 ≤ nowExp.nsec ∧ nowExp.nsec < 1000000000) :
    (claimIndex "exp" (tokenClaims L nowExp nowIat d) = Value.int (nowExp.sec + L) ↔
      -9223372036 ≤ L ∧ L ≤ 9223372036) ∧
    claimIndex "iat" (tokenClaims L nowExp nowIat d) = Value.int nowIat.sec := by
  have hexp : claimIndex "exp" (tokenClaims L nowExp nowIat d) =
      Value.int (nowExp.Add (secondsDuration L)).Unix := by rfl
  refine ⟨?_, by rfl⟩
  rw [hexp]
  constructor
  · intro h
    injection h with h
    have hb := Add_Unix_bounds nowExp (secondsDuration L) hns
    rw [h] at hb
    unfold secondsDuration wrap64 Second at hb
    omega
  · intro hL
    have hd : secondsDuration L = L * 1000000000 := by
      unfold secondsDuration wrap64 Second
      omega
    rw [hd, Add_Unix_exact nowExp L hns]

/-- C9 (amended) at a concrete input: a one-hour lifetime. -/
theorem tokenClaims_expiry_witness :
    claimIndex "exp"
        (tokenClaims 3600 ⟨1700000000, 5⟩ ⟨1700000000, 7⟩ ⟨Value.int 1, Value.null⟩) =
      Value.int (1700000000 + 3600) ∧
    claimIndex "iat"
        (tokenClaims 3600 ⟨1700000000, 5⟩ ⟨1700000000, 7⟩ ⟨Value.int 1, Value.null⟩) =
      Value.int 1700000000 :=
  have h := tokenClaims_expiry 3600 ⟨1700000000, 5⟩ ⟨1700000000, 7⟩ ⟨Value.int 1, Value.null⟩
    (by decide) (by decide)
  ⟨h.1.mpr (by decide), h.2⟩

/-! ## Bearer prefix -/

/-- C10 (evaluation at the failing input): for the header made of "Bearer ", and
a token of three base64url segments whose last segment contains the letters
"Bearer", the string handed to the token parser is the token with those six
letters deleted, not the token itself (which has no surrounding white space):
every occurrence of "Bearer" is removed, not only the scheme prefix. -/
theorem CheckAuth_bearer_removes_inner_occurrence :
    bearerTokenString
        "Bearer eyJhbGciOiJIUzI1NiIsInR5cCI6IkpXVCJ9.eyJ1aWQiOjF9.q3Zt0Bearer7Hh2mYw5LxA9cKd1PfRu8sVnEo4TgJb6" =
      "eyJhbGciOiJIUzI1NiIsInR5cCI6IkpXVCJ9.eyJ1aWQiOjF9.q3Zt07Hh2mYw5LxA9cKd1PfRu8sVnEo4TgJb6" ∧
    TrimSpace "eyJhbGciOiJIUzI1NiIsInR5cCI6IkpXVCJ9.eyJ1aWQiOjF9.q3Zt0Bearer7Hh2mYw5LxA9cKd1PfRu8sVnEo4TgJb6" =
      "eyJhbGciOiJIUzI1NiIsInR5cCI6IkpXVCJ9.eyJ1aWQiOjF9.q3Zt0Bearer7Hh2mYw5LxA9cKd1PfRu8sVnEo4TgJb6" ∧
    CheckAuth (sampleEnv none)
        { Header := [("Authorization",
            ["Bearer eyJhbGciOiJIUzI1NiIsInR5cCI6IkpXVCJ9.eyJ1aWQiOjF9.q3Zt0Bearer7Hh2mYw5LxA9cKd1PfRu8sVnEo4TgJb6"])] } =
      ⟨[Event.LogError "eyJhbGciOiJIUzI1NiIsInR5cCI6IkpXVCJ9.eyJ1aWQiOjF9.q3Zt07Hh2mYw5LxA9cKd1PfRu8sVnEo4TgJb6"],
        Except.ok ({}, some "eyJhbGciOiJIUzI1NiIsInR5cCI6IkpXVCJ9.eyJ1aWQiOjF9.q3Zt07Hh2mYw5LxA9cKd1PfRu8sVnEo4TgJb6")⟩ ∧
    bearerTokenString
        "Bearer eyJhbGciOiJIUzI1NiIsInR5cCI6IkpXVCJ9.eyJ1aWQiOjF9.q3Zt0Bearer7Hh2mYw5LxA9cKd1PfRu8sVnEo4TgJb6" ≠
      TrimSpace "eyJhbGciOiJIUzI1NiIsInR5cCI6IkpXVCJ9.eyJ1aWQiOjF9.q3Zt0Bearer7Hh2mYw5LxA9cKd1PfRu8sVnEo4TgJb6" := by
  refine ⟨rfl, rfl, rfl, ?_⟩
  decide

/-! ## Token round trip -/

theorem replaceScan_no_occurrence (old new : List Char) (cs : List Char) (left : Nat)
    (h : containsAt old cs = false) : replaceScan old new cs 0 left = cs := by
  induction cs with
  | nil => rfl
  | cons c rest ih =>
    simp only [containsAt, Bool.or_eq_false_iff] at h
    simp [replaceScan, h.1, ih h.2]

theorem trimSpaceChars_leading_space (cs : List Char) :
    trimSpaceChars (' ' :: cs) = trimSpaceChars cs := by
  have hsp : IsSpace ' ' = true := by decide
  simp [trimSpaceChars, List.dropWhile, hsp]

/-- For a token that does not contain "Bearer" and has no surrounding white
space, the header "Bearer " followed by the token is on the bearer path and the
parser is handed the token itself. -/
theorem bearerTokenString_clean (tok : String)
    (hb : Contains tok "Bearer" = false) (ht : TrimSpace tok = tok) :
    Contains ("Bearer " ++ tok) "Bearer" = true ∧
      bearerTokenString ("Bearer " ++ tok) = tok := by
  have hdata : ("Bearer " ++ tok).data = 'B' :: 'e' :: 'a' :: 'r' :: 'e' :: 'r' :: ' ' :: tok.data := by
    simp [String.data_append]
  have hold : ("Bearer" : String).data = ['B', 'e', 'a', 'r', 'e', 'r'] := rfl
  have hnew : ("" : String).data = [] := rfl
  have hb2 : containsAt ['B', 'e', 'a', 'r', 'e', 'r'] tok.data = false := by
    simpa [Contains, hold] using hb
  constructor
  · simp [Contains, hdata, hold, containsAt, List.isPrefixOf]
  · have hne : ¬ (("Bearer" : String) = "") := by decide
    have hrep : Replace ("Bearer " ++ tok) "Bearer" "" (-1) = String.mk (' ' :: tok.data) := by
      simp only [Replace, hne, hdata, hold, hnew]
      simp [replaceScan, List.isPrefixOf, replaceScan_no_occurrence _ _ _ _ hb2]
    have htd : String.mk (trimSpaceChars tok.data) = tok := ht
    simp only [bearerTokenString, hrep, TrimSpace, trimSpaceChars_leading_space]
    exact htd

theorem jsonDecodeList_strings (l : List String) :
    jsonDecodeList (l.map Value.str) = l.map Value.str := by
  induction l with
  | nil => rfl
  | cons x rest ih => simp [jsonDecodeList, jsonDecode, ih]

/-- JSON decoding returns a per-tenant permission map as it was put in. -/
theorem jsonDecode_userPayload (m : List (String × List String)) :
    jsonDecode (userPayload m) = userPayload m := by
  have hf : jsonDecodeFields (m.map fun kv => (kv.1, Value.list (kv.2.map Value.str))) =
      m.map fun kv => (kv.1, Value.list (kv.2.map Value.str)) := by
    induction m with
    | nil => rfl
    | cons kv rest ih =>
      simp [jsonDecodeFields, jsonDecode, jsonDecodeList_strings, ih]
  simp [userPayload, jsonDecode, hf]

/-- Every natural number up to 2^53 is a float64. -/
theorem float64OfNat_exact (n : Nat) (h : n ≤ 2 ^ 53) : float64OfNat n = n := by
  rcases Nat.lt_or_eq_of_le h with hlt | heq
  · unfold float64OfNat
    rw [if_pos hlt]
  · subst heq
    rfl

theorem float64OfInt_natCast (n : Nat) :
    float64OfInt (n : Int) = (((float64OfNat n : Nat) : Int) : Rat) := rfl

/-- Conversion back to `uint` of a subject id that float64 represents exactly. -/
theorem toUint_float64_exact (env : Env) (uid : Nat)
    (h : float64OfNat uid = uid ∧ uid < 2 ^ 64) :
    toUint env (float64OfInt (uid : Int)) = uid := by
  have hlt : (uid : Int) < 18446744073709551616 := by
    have := h.2
    omega
  rw [float64OfInt_natCast, h.1]
  simp [toUint, hlt]

/-- C8 (as stated, refuted): with a token library that signs without error and
verifies the issued token as section 4.1 says, the round trip through
`GenerateToken` and the bearer path of `CheckAuth` does not return what was
given. (1) The subject id 9007199254740993 comes back through float64 as
9007199254740992, and that id is looked up. (2) With lifetime 10000000000 the
expiry overflows into the past and the token is rejected as expired at the very
instant it was issued. (3) A payload holding the integer 1 comes back holding
the float64 1. -/
theorem round_trip_alters_id_expiry_payload :
    (GenerateToken
        (issuingEnv 3600 "s3cret" "hdr.pld.sig"
          (tokenClaims 3600 ⟨1700000000, 0⟩ ⟨1700000000, 0⟩
            ⟨Value.int 9007199254740993, userPayload [("1", ["read"])]⟩) 1700000000)
        ⟨1700000000, 0⟩ ⟨1700000000, 0⟩
        ⟨Value.int 9007199254740993, userPayload [("1", ["read"])]⟩ =
      ⟨[], Except.ok "hdr.pld.sig"⟩ ∧
     CheckAuth
        (issuingEnv 3600 "s3cret" "hdr.pld.sig"
          (tokenClaims 3600 ⟨1700000000, 0⟩ ⟨1700000000, 0⟩
            ⟨Value.int 9007199254740993, userPayload [("1", ["read"])]⟩) 1700000000)
        { Header := [("Authorization", ["Bearer hdr.pld.sig"])] } =
      ⟨[], Except.ok
        ({ User := { DisplayName := "alice", Username := "alice",
                     Status := 9007199254740992 },
           Permissions := userPayload [("1", ["read"])],
           Kind := "user" }, none)⟩) ∧
    (GenerateToken
        (issuingEnv 10000000000 "s3cret" "hdr.pld.sig"
          (tokenClaims 10000000000 ⟨1700000000, 0⟩ ⟨1700000000, 0⟩
            ⟨Value.int 7, userPayload [("1", ["read"])]⟩) 1700000000)
        ⟨1700000000, 0⟩ ⟨1700000000, 0⟩
        ⟨Value.int 7, userPayload [("1", ["read"])]⟩ =
      ⟨[], Except.ok "hdr.pld.sig"⟩ ∧
     CheckAuth
        (issuingEnv 10000000000 "s3cret" "hdr.pld.sig"
          (tokenClaims 10000000000 ⟨1700000000, 0⟩ ⟨1700000000, 0⟩
            ⟨Value.int 7, userPayload [("1", ["read"])]⟩) 1700000000)
        { Header := [("Authorization", ["Bearer hdr.pld.sig"])] } =
      ⟨[Event.LogError "Token is expired"], Except.ok ({}, some "Token is expired")⟩) ∧
    (GenerateToken
        (issuingEnv 3600 "s3cret" "hdr.pld.sig"
          (tokenClaims 3600 ⟨1700000000, 0⟩ ⟨1700000000, 0⟩
            ⟨Value.int 7, Value.list [Value.int 1]⟩) 1700000000)
        ⟨1700000000, 0⟩ ⟨1700000000, 0⟩ ⟨Value.int 7, Value.list [Value.int 1]⟩ =
      ⟨[], Except.ok "hdr.pld.sig"⟩ ∧
     CheckAuth
        (issuingEnv 3600 "s3cret" "hdr.pld.sig"
          (tokenClaims 3600 ⟨1700000000, 0⟩ ⟨1700000000, 0⟩
            ⟨Value.int 7, Value.list [Value.int 1]⟩) 1700000000)
        { Header := [("Authorization", ["Bearer hdr.pld.sig"])] } =
      ⟨[], Except.ok
        ({ User := { DisplayName := "alice", Username := "alice", Status := 7 },
           Permissions := Value.list [Value.float64 1],
           Kind := "user" }, none)⟩) := by
  exact ⟨⟨rfl, rfl⟩, ⟨rfl, rfl⟩, ⟨rfl, rfl⟩⟩

/-- C8 (amended): let the token library sign the claim set of `GenerateToken`
without error into `tok`, and verify `tok` under the same secret as section 4.1
says, at a clock not before the second clock reading (issuance) and strictly
before the first clock reading plus the lifetime.
For a subject id that float64 represents exactly (every id up to 2^53), a
permissions payload in the form JSON decoding returns (any map from tenant ids
to lists of permission strings is one), a lifetime L with
-9223372036 ≤ L ≤ 9223372036, and a token string that has no surrounding white
space and does not contain "Bearer", `GenerateToken` returns `tok`, and the
bearer path of `CheckAuth` on the header "Bearer " followed by `tok` looks up
the same subject id and returns a principal of kind "user" with the same
payload. -/
theorem GenerateToken_CheckAuth_round_trip (env : Env) (r : Request) (L : Int)
    (nowExp nowIat : Time) (now : Int) (uid : Nat) (roles : Value) (secret tok : String)
    (hlife : mapIndex "lifetime" env.jwt = some (Value.int L))
    (hsecret : mapIndex "secret" env.jwt = some (Value.str secret))
    (hsign : env.SignedString
      (tokenClaims L nowExp nowIat ⟨Value.int uid, roles⟩) secret = (tok, none))
    (hverify : env.ParseWithClaims tok (Except.ok secret) =
      Except.ok (verifyClaims (tokenClaims L nowExp nowIat ⟨Value.int uid, roles⟩) now))
    (hhdr : r.Header.Get "Authorization" = "Bearer " ++ tok)
    (hclean : Contains tok "Bearer" = false ∧ TrimSpace tok = tok)
    (huid : float64OfNat uid = uid ∧ uid < 2 ^ 64)
    (hroles : jsonDecode roles = roles)
    (hL : -9223372036 ≤ L ∧ L ≤ 9223372036)
    (hns : 0 ≤ nowExp.nsec ∧ nowExp.nsec < 1000000000)
    (hnow : nowIat.sec ≤ now ∧ now < nowExp.sec + L) :
    GenerateToken env nowExp nowIat ⟨Value.int uid, roles⟩ = ⟨[], Except.ok tok⟩ ∧
    CheckAuth env r =
      (match env.GetUserByID uid with
       | (_, some err) => ⟨[Event.LogError err], Except.ok ({}, some err)⟩
       | (user, none) =>
           ⟨[], Except.ok ({ User := user, Permissions := roles, Kind := "user" }, none)⟩) := by
  obtain ⟨hcontains, htoken⟩ := bearerTokenString_clean tok hclean.1 hclean.2
  have hd : secondsDuration L = L * 1000000000 := by
    unfold secondsDuration wrap64 Second
    omega
  have hexp : claimIndex "exp" (tokenClaims L nowExp nowIat ⟨Value.int uid, roles⟩) =
      Value.int (nowExp.sec + L) := by
    have h0 : claimIndex "exp" (tokenClaims L nowExp nowIat ⟨Value.int uid, roles⟩) =
        Value.int (nowExp.Add (secondsDuration L)).Unix := by rfl
    rw [h0, hd, Add_Unix_exact nowExp L hns]
  have hver : verifyClaims (tokenClaims L nowExp nowIat ⟨Value.int uid, roles⟩) now =
      ({ Valid := true,
         Claims := jsonDecodeFields (tokenClaims L nowExp nowIat ⟨Value.int uid, roles⟩) },
        none) := by
    have hiat : claimIndex "iat" (tokenClaims L nowExp nowIat ⟨Value.int uid, roles⟩) =
        Value.int nowIat.sec := by rfl
    have hnot : ¬ now < nowIat.sec := by omega
    simp only [verifyClaims, hexp, hiat, hnow.2, hnot, if_true, if_false]
  have huidc : claimIndex "uid"
      (jsonDecodeFields (tokenClaims L nowExp nowIat ⟨Value.int uid, roles⟩)) =
      Value.float64 (float64OfInt (uid : Int)) := by rfl
  have hpms : claimIndex "pms"
      (jsonDecodeFields (tokenClaims L nowExp nowIat ⟨Value.int uid, roles⟩)) =
      jsonDecode roles := by rfl
  have hkey : keyFunc env = Except.ok secret := by
    simp [keyFunc, hsecret]
  constructor
  · simp [GenerateToken, hlife, hsecret, hsign]
  · unfold CheckAuth
    simp only [hhdr, hcontains, htoken, hkey, hverify, hver, if_true, huidc, hpms, hroles,
      toUint_float64_exact env uid huid]

/-- C8 (amended) at a concrete input: subject id 7, payload {"1": ["read"]}, a
one-hour lifetime, verification 100 seconds after issuance. -/
theorem GenerateToken_CheckAuth_round_trip_witness :
    GenerateToken
        (issuingEnv 3600 "s3cret" "hdr.pld.sig"
          (tokenClaims 3600 ⟨1700000000, 5⟩ ⟨1700000000, 7⟩
            ⟨Value.int 7, userPayload [("1", ["read"])]⟩) 1700000100)
        ⟨1700000000, 5⟩ ⟨1700000000, 7⟩ ⟨Value.int 7, userPayload [("1", ["read"])]⟩ =
      ⟨[], Except.ok "hdr.pld.sig"⟩ ∧
    CheckAuth
        (issuingEnv 3600 "s3cret" "hdr.pld.sig"
          (tokenClaims 3600 ⟨1700000000, 5⟩ ⟨1700000000, 7⟩
            ⟨Value.int 7, userPayload [("1", ["read"])]⟩) 1700000100)
        { Header := [("Authorization", ["Bearer hdr.pld.sig"])] } =
      ⟨[], Except.ok
        ({ User := { DisplayName := "alice", Username := "alice", Status := 7 },
           Permissions := userPayload [("1", ["read"])],
           Kind := "user" }, none)⟩ :=
  GenerateToken_CheckAuth_round_trip
    (issuingEnv 3600 "s3cret" "hdr.pld.sig"
      (tokenClaims 3600 ⟨1700000000, 5⟩ ⟨1700000000, 7⟩
        ⟨Value.int 7, userPayload [("1", ["read"])]⟩) 1700000100)
    { Header := [("Authorization", ["Bearer hdr.pld.sig"])] }
    3600 ⟨1700000000, 5⟩ ⟨1700000000, 7⟩ 1700000100 7 (userPayload [("1", ["read"])])
    "s3cret" "hdr.pld.sig"
    rfl rfl rfl rfl rfl ⟨rfl, rfl⟩ ⟨rfl, by decide⟩ rfl ⟨by decide, by decide⟩
    ⟨by decide, by decide⟩ ⟨by decide, by decide⟩

end Userist
